import Mathlib

/-!
Verification of the secret-sharing protocol core of the fss_v2 repository
(two-party additive / boolean secret sharing with Beaver-triple
multiplication, its synchronous transport, and the triple persistence
format).

The C++ source is embedded shallowly:

* `uint32_t` values are `Nat`s; every machine operation reduces modulo
  `2 ^ 32` explicitly (`add32`, `sub32`, `mul32`).
* `utils::Mod(value, bitsize)` masks with `(1 << bitsize) - 1`; the
  implicit conversion of the argument to `uint32_t` is folded into the
  definition as a reduction modulo `2 ^ 32`.
* The blocking two-party exchange (`Party::SendRecv`) is modelled by
  giving each party the peer's submitted values directly: a correct
  channel delivers each serialized word exactly once, in order.
* The transport loops of `comm::internal::SendData` / `RecvData` are
  modelled as functions of the sequence of return values produced by the
  underlying `send` / `recv` system calls, so that behaviour under short
  reads and writes is expressible.
* Fallible vector indexing (`std::vector::operator[]` past the end,
  which is undefined behaviour in the source) is modelled with `Except`.
-/

namespace FssV2

/-- The modulus of the 32-bit machine words used throughout the source. -/
def U32 : Nat := 2 ^ 32

/-- `utils::Mod(value, bitsize)`: the argument is a `uint32_t` (hence the
reduction modulo `2 ^ 32` of the caller's value), and the body computes
`value & ((1UL << bitsize) - 1UL)`. -/
def Mod (value bitsize : Nat) : Nat := (value % U32) &&& (2 ^ bitsize - 1)

/-- Wrap-around addition of two `uint32_t` values. -/
def add32 (x y : Nat) : Nat := (x + y) % U32

/-- Wrap-around subtraction of two `uint32_t` values (two's complement:
`x - y` on `uint32_t` equals `x + (2^32 - y)` modulo `2^32`). -/
def sub32 (x y : Nat) : Nat := (x + (U32 - y % U32)) % U32

/-- Wrap-around multiplication of two `uint32_t` values. -/
def mul32 (x y : Nat) : Nat := (x * y) % U32

/-- `tools::secret_sharing::BeaverTriplet`: three `uint32_t` components. -/
structure BeaverTriplet where
  a : Nat
  b : Nat
  c : Nat
deriving DecidableEq, Repr

/-- `Party::SendRecv` on a correct channel: party 0 sends its own value
first and then receives, party 1 receives first and then sends.  After the
exchange both parties hold the pair (party 0's submission, party 1's
submission). -/
def SendRecvBoth (own0 own1 : Nat) : (Nat × Nat) × (Nat × Nat) :=
  ((own0, own1), (own0, own1))

namespace AdditiveSecretSharing

/-- `AdditiveSecretSharing::Share`: `x_0 = Mod(Rand64(), bitsize)`,
`x_1 = Mod(x - x_0, bitsize)`.  `r` is the 64-bit word drawn from the
random source. -/
def Share (k x r : Nat) : Nat × Nat :=
  (Mod r k, Mod (sub32 x (Mod r k)) k)

/-- The local combine step of `AdditiveSecretSharing::Reconst` after the
`SendRecv` exchange: `Mod(x_0 + x_1, bitsize)`. -/
def Reconst (k x0 x1 : Nat) : Nat := Mod (add32 x0 x1) k

/-- `AdditiveSecretSharing::Reconst` run jointly at both parties: party 0
submits `s0`, party 1 submits `s1`; each side combines the exchanged pair. -/
def ReconstBoth (k s0 s1 : Nat) : Nat × Nat :=
  (Reconst k (SendRecvBoth s0 s1).1.1 (SendRecvBoth s0 s1).1.2,
   Reconst k (SendRecvBoth s0 s1).2.1 (SendRecvBoth s0 s1).2.2)

end AdditiveSecretSharing

namespace AdditiveSecretSharing

/-- `AdditiveSecretSharing::Mult` (scalar Beaver multiplication), one party.
The party first computes its masked differences `Mod(x - a, k)` and
`Mod(y - b, k)`; `peerD`, `peerE` are the peer's masked differences as
delivered by the `Reconst` exchange; `d`/`e` are then the `Mod`-sums in the
slot order of the reconstructed array (`de_0[i] + de_1[i]`).  Party 0 adds
the `d*e` term, party 1 does not. -/
def Mult (k id : Nat) (bt : BeaverTriplet) (x y peerD peerE : Nat) : Nat :=
  if id = 0 then
    Mod (add32 (add32 (add32
        (mul32 (Mod (add32 (Mod (sub32 y bt.b) k) peerE) k) bt.a)
        (mul32 (Mod (add32 (Mod (sub32 x bt.a) k) peerD) k) bt.b))
        bt.c)
        (mul32 (Mod (add32 (Mod (sub32 x bt.a) k) peerD) k)
               (Mod (add32 (Mod (sub32 y bt.b) k) peerE) k))) k
  else
    Mod (add32 (add32
        (mul32 (Mod (add32 peerE (Mod (sub32 y bt.b) k)) k) bt.a)
        (mul32 (Mod (add32 peerD (Mod (sub32 x bt.a) k)) k) bt.b))
        bt.c) k

/-- The joint run of `AdditiveSecretSharing::Mult` at both parties: each
party receives the peer's masked differences through the exchange. -/
def MultBoth (k : Nat) (bt0 bt1 : BeaverTriplet) (x0 y0 x1 y1 : Nat) : Nat × Nat :=
  (Mult k 0 bt0 x0 y0 (Mod (sub32 x1 bt1.a) k) (Mod (sub32 y1 bt1.b) k),
   Mult k 1 bt1 x1 y1 (Mod (sub32 x0 bt0.a) k) (Mod (sub32 y0 bt0.b) k))

/-- `AdditiveSecretSharing::ShareBeaverTriples`: for each triple, each of
`a`, `b`, `c` is split by drawing a fresh random word for the first share
and setting the second share to the `Mod`-difference.  `rnd i` supplies the
three 64-bit draws consumed at index `i`. -/
def ShareBeaverTriples (k : Nat) (rnd : Nat → Nat × Nat × Nat) :
    List BeaverTriplet → Nat → List BeaverTriplet × List BeaverTriplet
  | [], _ => ([], [])
  | bt :: rest, i =>
    (⟨Mod (rnd i).1 k, Mod (rnd i).2.1 k, Mod (rnd i).2.2 k⟩ ::
        (ShareBeaverTriples k rnd rest (i + 1)).1,
     ⟨Mod (sub32 bt.a (Mod (rnd i).1 k)) k,
      Mod (sub32 bt.b (Mod (rnd i).2.1 k)) k,
      Mod (sub32 bt.c (Mod (rnd i).2.2 k)) k⟩ ::
        (ShareBeaverTriples k rnd rest (i + 1)).2)

end AdditiveSecretSharing

namespace BooleanSecretSharing

/-- `rng::SecureRng::RandBool()` as a `uint32_t` value. -/
def b2u (b : Bool) : Nat := if b then 1 else 0

/-- `BooleanSecretSharing::Share`: `x_0 = RandBool()`, `x_1 = x ^ x_0`. -/
def Share (x : Nat) (r : Bool) : Nat × Nat := (b2u r, x ^^^ b2u r)

/-- The local combine step of `BooleanSecretSharing::Reconst` after the
`SendRecv` exchange: `x_0 ^ x_1`. -/
def Reconst (x0 x1 : Nat) : Nat := x0 ^^^ x1

/-- `BooleanSecretSharing::ShareBeaverTriples`: each component is split by
a fresh random bit for the first share and the XOR for the second. -/
def ShareBeaverTriples (rnd : Nat → Bool × Bool × Bool) :
    List BeaverTriplet → Nat → List BeaverTriplet × List BeaverTriplet
  | [], _ => ([], [])
  | bt :: rest, i =>
    (⟨b2u (rnd i).1, b2u (rnd i).2.1, b2u (rnd i).2.2⟩ ::
        (ShareBeaverTriples rnd rest (i + 1)).1,
     ⟨bt.a ^^^ b2u (rnd i).1, bt.b ^^^ b2u (rnd i).2.1, bt.c ^^^ b2u (rnd i).2.2⟩ ::
        (ShareBeaverTriples rnd rest (i + 1)).2)

/-- `BooleanSecretSharing::And`, one party.  `peerD`, `peerE` are the
peer's masked differences delivered by the `Reconst` exchange; the `de`
values XOR the two slots in the reconstructed-array order. Party 0 adds
the `d & e` correction, party 1 does not. -/
def And (id : Nat) (bt : BeaverTriplet) (x y peerD peerE : Nat) : Nat :=
  if id = 0 then
    (((y ^^^ bt.b) ^^^ peerE) &&& bt.a) ^^^ (((x ^^^ bt.a) ^^^ peerD) &&& bt.b) ^^^ bt.c ^^^
      (((x ^^^ bt.a) ^^^ peerD) &&& ((y ^^^ bt.b) ^^^ peerE))
  else
    ((peerE ^^^ (y ^^^ bt.b)) &&& bt.a) ^^^ ((peerD ^^^ (x ^^^ bt.a)) &&& bt.b) ^^^ bt.c

/-- `BooleanSecretSharing::Or`, one party: only party 0 flips its input
shares before the AND and flips its output share afterwards; party 1
executes a plain AND. -/
def Or (id : Nat) (bt : BeaverTriplet) (x y peerD peerE : Nat) : Nat :=
  if id = 0 then (And 0 bt (x ^^^ 1) (y ^^^ 1) peerD peerE) ^^^ 1
  else And 1 bt x y peerD peerE

/-- The joint run of `BooleanSecretSharing::And` at both parties. -/
def AndBoth (bt0 bt1 : BeaverTriplet) (x0 y0 x1 y1 : Nat) : Nat × Nat :=
  (And 0 bt0 x0 y0 (x1 ^^^ bt1.a) (y1 ^^^ bt1.b),
   And 1 bt1 x1 y1 (x0 ^^^ bt0.a) (y0 ^^^ bt0.b))

/-- The joint run of `BooleanSecretSharing::Or` at both parties.  Party 0
masks its flipped shares, so the differences party 1 receives are
`(x0 ^ 1) ^ a0` and `(y0 ^ 1) ^ b0`; party 1 masks its plain shares. -/
def OrBoth (bt0 bt1 : BeaverTriplet) (x0 y0 x1 y1 : Nat) : Nat × Nat :=
  (Or 0 bt0 x0 y0 (x1 ^^^ bt1.a) (y1 ^^^ bt1.b),
   Or 1 bt1 x1 y1 ((x0 ^^^ 1) ^^^ bt0.a) ((y0 ^^^ 1) ^^^ bt0.b))

end BooleanSecretSharing

/-! ### Party state and `StartCommunication` -/

/-- The mutable state of `tools::secret_sharing::Party`: the party id, the
accumulated bytes-sent counter of the active endpoint, the `is_started_`
latch, and an instrumentation counter of socket-layer operations performed
(`Setup` / `Start` calls on the server or client). -/
structure PartyState where
  id : Nat
  totalBytesSent : Nat
  isStarted : Bool
  socketOpsPerformed : Nat
deriving DecidableEq, Repr

/-- `Party::StartCommunication`: clears the bytes-sent counter, then
returns if the latch is set; otherwise performs the role-specific
`Setup()` and `Start()` (two socket operations) and sets the latch. -/
def StartCommunication (s : PartyState) : PartyState :=
  let s1 : PartyState := { s with totalBytesSent := 0 }
  if s1.isStarted then s1
  else { s1 with socketOpsPerformed := s1.socketOpsPerformed + 2, isStarted := true }

/-! ### The transport loops of `comm::internal` -/

/-- `comm::internal::SendData`, parameterized by the sequence `rets` of
return values of the successive `send` system calls.  A call that returns
`r > 0` puts the first `r` bytes of `data` on the wire (the source passes
the unchanged `data` pointer and full `data_size` to every call); the loop
adds `r` to `total_sent_bytes` and continues while it is below
`data_size`.  Returns the wire transcript and the success flag, or `none`
if `rets` is exhausted while the loop still runs. -/
def SendData (data : List Nat) (dataSize : Int) :
    Int → List Int → Option (List Nat × Bool)
  | total, rets =>
    if total ≥ dataSize then some ([], true)
    else
      match rets with
      | [] => none
      | r :: rs =>
        if r ≤ 0 then some ([], false)
        else (SendData data dataSize (total + r) rs).map
          (fun p => (data.take r.toNat ++ p.1, p.2))

/-- Writing a received segment at the start of the buffer: the source
passes the unchanged `buffer` pointer to every `recv` call. -/
def overwriteAtStart (buffer seg : List Nat) : List Nat :=
  seg ++ buffer.drop seg.length

/-- `comm::internal::RecvData`, parameterized by the incoming byte
`stream` and the sequence `rets` of return values of the successive `recv`
system calls.  A call that returns `r > 0` consumes the next `r` bytes of
the stream and writes them at offset 0 of the buffer; the loop adds `r` to
`total_received_bytes` and continues while it is below `buffer_size`.
Returns the final buffer contents and the success flag, or `none` if
`rets` is exhausted while the loop still runs. -/
def RecvData (stream buffer : List Nat) (bufferSize : Int) :
    Int → List Int → Option (List Nat × Bool)
  | total, rets =>
    if total ≥ bufferSize then some (buffer, true)
    else
      match rets with
      | [] => none
      | r :: rs =>
        if r ≤ 0 then some (buffer, false)
        else RecvData (stream.drop r.toNat)
          (overwriteAtStart buffer (stream.take r.toNat)) bufferSize (total + r) rs

/-! ### The vector multiplication overload, with fallible indexing -/

/-- Error outcomes of the embedded vector operation: `lengthMismatch` is
the error the specification names; `outOfBounds` marks an out-of-range
`std::vector::operator[]` access, which is undefined behaviour in the
source. -/
inductive SSErr where
  | lengthMismatch
  | outOfBounds
deriving DecidableEq, Repr

/-- `std::vector::operator[]`: in-range access yields the element, an
out-of-range access is undefined behaviour. -/
def vecIdx {α : Type} (l : List α) (i : Nat) : Except SSErr α :=
  match l[i]? with
  | some a => Except.ok a
  | none => Except.error SSErr.outOfBounds

/-- First loop of the vector `AdditiveSecretSharing::Mult`: for each
`i < num` the party computes its own masked difference pair from
`x_vec[i]`, `y_vec[i]` and `bt_vec[i]`.  Iteration is by current index `i`
and remaining count. -/
def deLoop (k : Nat) (bts : List BeaverTriplet) (xs ys : List Nat) :
    Nat → Nat → Except SSErr (List (Nat × Nat))
  | _, 0 => Except.ok []
  | i, rem + 1 => do
    let x ← vecIdx xs i
    let bt ← vecIdx bts i
    let y ← vecIdx ys i
    let rest ← deLoop k bts xs ys (i + 1) rem
    Except.ok ((Mod (sub32 x bt.a) k, Mod (sub32 y bt.b) k) :: rest)

/-- Second loop of the vector `AdditiveSecretSharing::Mult`: combines the
own and peer masked differences (the local `de` arrays are pre-sized to
`2*num`, so their indexing never goes out of range`) and accesses
`bt_vec[i]` again for the combine. -/
def zLoop (k id : Nat) (bts : List BeaverTriplet) (deOwn dePeer : List (Nat × Nat)) :
    Nat → Nat → Except SSErr (List Nat)
  | _, 0 => Except.ok []
  | i, rem + 1 => do
    let bt ← vecIdx bts i
    let own := deOwn.getD i (0, 0)
    let peer := dePeer.getD i (0, 0)
    let d := if id = 0 then Mod (add32 own.1 peer.1) k else Mod (add32 peer.1 own.1) k
    let e := if id = 0 then Mod (add32 own.2 peer.2) k else Mod (add32 peer.2 own.2) k
    let z := if id = 0 then
        Mod (add32 (add32 (add32 (mul32 e bt.a) (mul32 d bt.b)) bt.c) (mul32 d e)) k
      else
        Mod (add32 (add32 (mul32 e bt.a) (mul32 d bt.b)) bt.c) k
    let rest ← zLoop k id bts deOwn dePeer (i + 1) rem
    Except.ok (z :: rest)

/-- The vector overload of `AdditiveSecretSharing::Mult` at one party:
`num = z_vec.size()` drives both loops; no length check of any kind is
performed on `x_vec`, `y_vec` or `bt_vec`. -/
def MultVec (k id num : Nat) (bts : List BeaverTriplet) (xs ys : List Nat)
    (dePeer : List (Nat × Nat)) : Except SSErr (List Nat) := do
  let deOwn ← deLoop k bts xs ys 0 num
  zLoop k id bts deOwn dePeer 0 num

/-! ### Beaver-triple persistence (text format) -/

/-- Decimal digits (as byte values, most significant first) of `n`, as
produced by `operator<<` on an `std::ofstream`. -/
def decimalBytes (n : Nat) : List Nat :=
  if h : n < 10 then [48 + n]
  else decimalBytes (n / 10) ++ [48 + n % 10]
termination_by n
decreasing_by exact Nat.div_lt_self (by omega) (by omega)

/-- Modelled from the spec: the body of `utils::FileIo::SplitStringToUint32`
is not part of the sources; per its declaration and the file format of the
specification it parses a decimal integer (here: fold over the digit
bytes). -/
def parseDecimal (l : List Nat) : Nat :=
  l.foldl (fun acc d => acc * 10 + (d - 48)) 0

/-- Modelled from the spec: comma-splitting core of
`utils::FileIo::SplitStringToUint32` (body not in the sources); 44 is the
byte value of the comma delimiter named in its declaration. -/
def splitCommaAux : List Nat → List Nat → List (List Nat)
  | [], cur => [cur]
  | d :: rest, cur =>
    if d = 44 then cur :: splitCommaAux rest []
    else splitCommaAux rest (cur ++ [d])

/-- Modelled from the spec: `utils::FileIo::SplitStringToUint32` parses the
line using the comma delimiter and extracts the `uint32_t` values. -/
def SplitStringToUint32 (line : List Nat) : List Nat :=
  (splitCommaAux line []).map parseDecimal

/-- `ShareHandler::WriteBeaverTriplesToFile`: first line the element
count, then one line `a,b,c` per triple.  A file is a list of lines, a
line a list of byte values. -/
def WriteBeaverTriplesToFile (btVec : List BeaverTriplet) : List (List Nat) :=
  decimalBytes btVec.length ::
    btVec.map (fun bt =>
      decimalBytes bt.a ++ [44] ++ decimalBytes bt.b ++ [44] ++ decimalBytes bt.c)

/-- `ShareHandler::ReadBeaverTriplesFromFile`: reads the element count from
the first line (`ReadNumCountFromFile`, modelled from the spec: its body is
not in the sources), then for each index up to the count reads the next
line if one exists and parses it with `SplitStringToUint32`; `vec[0..2]`
become the triple components. -/
def ReadBeaverTriplesFromFile (lines : List (List Nat)) : List BeaverTriplet :=
  match lines with
  | [] => []
  | countLine :: rest =>
    (rest.take (parseDecimal countLine)).map (fun line =>
      ⟨(SplitStringToUint32 line).getD 0 0, (SplitStringToUint32 line).getD 1 0,
       (SplitStringToUint32 line).getD 2 0⟩)

/-! ### Basic lemmas about the machine arithmetic -/

theorem and_mask_eq_mod (x k : Nat) : x &&& (2 ^ k - 1) = x % 2 ^ k := by
  apply Nat.eq_of_testBit_eq
  intro i
  simp [Nat.testBit_and, Nat.testBit_two_pow_sub_one, Nat.testBit_mod_two_pow, Bool.and_comm]

theorem U32_pos : 0 < U32 := by norm_num [U32]

theorem dvd_U32 {k : Nat} (hk : k ≤ 32) : 2 ^ k ∣ U32 := by
  unfold U32
  exact pow_dvd_pow 2 hk

theorem Mod_eq_mod {k : Nat} (hk : k ≤ 32) (v : Nat) : Mod v k = v % 2 ^ k := by
  rw [Mod, and_mask_eq_mod, Nat.mod_mod_of_dvd v (dvd_U32 hk)]

theorem Mod_lt (v k : Nat) : Mod v k < 2 ^ k := by
  rw [Mod, and_mask_eq_mod]
  exact Nat.mod_lt _ (Nat.pos_pow_of_pos k (by norm_num))

theorem natCast_mod_U32 {k : Nat} (hk : k ≤ 32) (v : Nat) :
    ((v % U32 : Nat) : ZMod (2 ^ k)) = (v : ZMod (2 ^ k)) := by
  rw [ZMod.natCast_eq_natCast_iff']
  exact Nat.mod_mod_of_dvd v (dvd_U32 hk)

theorem natCast_U32 {k : Nat} (hk : k ≤ 32) : ((U32 : Nat) : ZMod (2 ^ k)) = 0 :=
  (ZMod.natCast_zmod_eq_zero_iff_dvd U32 (2 ^ k)).mpr (dvd_U32 hk)

theorem cast_Mod {k : Nat} (hk : k ≤ 32) (v : Nat) :
    ((Mod v k : Nat) : ZMod (2 ^ k)) = (v : ZMod (2 ^ k)) := by
  rw [Mod_eq_mod hk, ZMod.natCast_mod]

theorem cast_add32 {k : Nat} (hk : k ≤ 32) (x y : Nat) :
    ((add32 x y : Nat) : ZMod (2 ^ k)) = (x : ZMod (2 ^ k)) + (y : ZMod (2 ^ k)) := by
  rw [add32, natCast_mod_U32 hk, Nat.cast_add]

theorem cast_mul32 {k : Nat} (hk : k ≤ 32) (x y : Nat) :
    ((mul32 x y : Nat) : ZMod (2 ^ k)) = (x : ZMod (2 ^ k)) * (y : ZMod (2 ^ k)) := by
  rw [mul32, natCast_mod_U32 hk, Nat.cast_mul]

theorem cast_sub32 {k : Nat} (hk : k ≤ 32) (x y : Nat) :
    ((sub32 x y : Nat) : ZMod (2 ^ k)) = (x : ZMod (2 ^ k)) - (y : ZMod (2 ^ k)) := by
  rw [sub32, natCast_mod_U32 hk, Nat.cast_add,
    Nat.cast_sub (Nat.le_of_lt (Nat.mod_lt _ U32_pos)), natCast_U32 hk,
    natCast_mod_U32 hk, zero_sub, ← sub_eq_add_neg]

/-! ### C10: Share accepts any uint32 input -/

/-- C10: `AdditiveSecretSharing::Share` accepts any 32-bit input `x`, not
only `x < 2^k`; for every `k` with `2 ≤ k ≤ 32`, every uint32 `x` and every
random draw `r`, both shares are canonical (each lies in `[0, 2^k)`, i.e.
equals its own low `k` bits) and their sum is congruent to `x` modulo
`2^k`: out-of-range inputs are silently reduced, not rejected. -/
theorem share_accepts_any_uint32 (k x r : Nat) (hk2 : 2 ≤ k) (hk : k ≤ 32)
    (hx : x < U32) :
    (AdditiveSecretSharing.Share k x r).1 < 2 ^ k ∧
    (AdditiveSecretSharing.Share k x r).2 < 2 ^ k ∧
    ((AdditiveSecretSharing.Share k x r).1 + (AdditiveSecretSharing.Share k x r).2) % 2 ^ k
      = x % 2 ^ k := by
  refine ⟨Mod_lt r k, Mod_lt _ k, ?_⟩
  rw [← ZMod.natCast_eq_natCast_iff']
  push_cast [AdditiveSecretSharing.Share, cast_Mod hk, cast_sub32 hk]
  ring

/-- Witness for C10 at a concrete out-of-range input (`k = 8`, `x = 1000`). -/
theorem share_accepts_any_uint32_witness :
    (AdditiveSecretSharing.Share 8 1000 123456).1 < 2 ^ 8 ∧
    (AdditiveSecretSharing.Share 8 1000 123456).2 < 2 ^ 8 ∧
    ((AdditiveSecretSharing.Share 8 1000 123456).1 +
      (AdditiveSecretSharing.Share 8 1000 123456).2) % 2 ^ 8 = 1000 % 2 ^ 8 :=
  share_accepts_any_uint32 8 1000 123456 (by decide) (by decide) (by decide)

/-! ### C4: share-then-reconstruct is the identity -/

/-- C4: for every bit-width `2 ≤ k ≤ 32`, every `v < 2^k` and every outcome
`r` of the random coin drawn by `AdditiveSecretSharing::Share`, the two
shares sum to `v` modulo `2^k`, and after the share exchange
`AdditiveSecretSharing::Reconst` returns that same `v` at both parties. -/
theorem share_then_reconst (k v r : Nat) (hk2 : 2 ≤ k) (hk : k ≤ 32)
    (hv : v < 2 ^ k) :
    ((AdditiveSecretSharing.Share k v r).1 + (AdditiveSecretSharing.Share k v r).2) % 2 ^ k
      = v ∧
    AdditiveSecretSharing.ReconstBoth k (AdditiveSecretSharing.Share k v r).1
      (AdditiveSecretSharing.Share k v r).2 = (v, v) := by
  have hsum : ((AdditiveSecretSharing.Share k v r).1 +
      (AdditiveSecretSharing.Share k v r).2) % 2 ^ k = v := by
    have : ((AdditiveSecretSharing.Share k v r).1 +
        (AdditiveSecretSharing.Share k v r).2) % 2 ^ k = v % 2 ^ k := by
      rw [← ZMod.natCast_eq_natCast_iff']
      push_cast [AdditiveSecretSharing.Share, cast_Mod hk, cast_sub32 hk]
      ring
    rw [this, Nat.mod_eq_of_lt hv]
  refine ⟨hsum, ?_⟩
  have hrec : AdditiveSecretSharing.Reconst k (AdditiveSecretSharing.Share k v r).1
      (AdditiveSecretSharing.Share k v r).2 = v := by
    rw [AdditiveSecretSharing.Reconst, Mod_eq_mod hk, add32,
      Nat.mod_mod_of_dvd _ (dvd_U32 hk), hsum]
  rw [AdditiveSecretSharing.ReconstBoth, SendRecvBoth]
  rw [show ((((AdditiveSecretSharing.Share k v r).1, (AdditiveSecretSharing.Share k v r).2),
    ((AdditiveSecretSharing.Share k v r).1, (AdditiveSecretSharing.Share k v r).2)).1.1)
    = (AdditiveSecretSharing.Share k v r).1 from rfl]
  simp only
  rw [hrec]

/-- Witness for C4 at the spec's scenario S1: `k = 32`,
`v = 0xDEADBEEF`, coin `r = 0x11111111`. -/
theorem share_then_reconst_witness :
    ((AdditiveSecretSharing.Share 32 3735928559 286331153).1 +
      (AdditiveSecretSharing.Share 32 3735928559 286331153).2) % 2 ^ 32 = 3735928559 ∧
    AdditiveSecretSharing.ReconstBoth 32 (AdditiveSecretSharing.Share 32 3735928559 286331153).1
      (AdditiveSecretSharing.Share 32 3735928559 286331153).2 = (3735928559, 3735928559) :=
  share_then_reconst 32 3735928559 286331153 (by decide) (by decide) (by decide)

/-! ### C1: Beaver multiplication is correct -/

/-- C1: for every bit-width `2 ≤ k ≤ 32`, all `u, v < 2^k`, every clear
triple `(a, b, c)` with `c ≡ a*b (mod 2^k)` and every additive splitting of
`u, v, a, b, c` into party shares, the outputs of
`AdditiveSecretSharing::Mult` at party 0 (which adds the `d*e` term) and
party 1 (which does not) satisfy `(z0 + z1) mod 2^k = (u*v) mod 2^k`. -/
theorem mult_beaver_correct (k u v a b c x0 x1 y0 y1 a0 a1 b0 b1 c0 c1 : Nat)
    (hk2 : 2 ≤ k) (hk : k ≤ 32) (hu : u < 2 ^ k) (hv : v < 2 ^ k)
    (hc : c % 2 ^ k = a * b % 2 ^ k)
    (hx : (x0 + x1) % 2 ^ k = u % 2 ^ k) (hy : (y0 + y1) % 2 ^ k = v % 2 ^ k)
    (ha : (a0 + a1) % 2 ^ k = a % 2 ^ k) (hb : (b0 + b1) % 2 ^ k = b % 2 ^ k)
    (hcs : (c0 + c1) % 2 ^ k = c % 2 ^ k) :
    ((AdditiveSecretSharing.MultBoth k ⟨a0, b0, c0⟩ ⟨a1, b1, c1⟩ x0 y0 x1 y1).1 +
     (AdditiveSecretSharing.MultBoth k ⟨a0, b0, c0⟩ ⟨a1, b1, c1⟩ x0 y0 x1 y1).2) % 2 ^ k
      = (u * v) % 2 ^ k := by
  have cast_of_mod : ∀ p q : Nat, p % 2 ^ k = q % 2 ^ k →
      (p : ZMod (2 ^ k)) = (q : ZMod (2 ^ k)) := fun p q h =>
    (ZMod.natCast_eq_natCast_iff' p q (2 ^ k)).mpr h
  have hx' : (x0 : ZMod (2 ^ k)) + x1 = u := by
    have h := cast_of_mod _ _ hx; push_cast at h; exact h
  have hy' : (y0 : ZMod (2 ^ k)) + y1 = v := by
    have h := cast_of_mod _ _ hy; push_cast at h; exact h
  have ha' : (a0 : ZMod (2 ^ k)) + a1 = a := by
    have h := cast_of_mod _ _ ha; push_cast at h; exact h
  have hb' : (b0 : ZMod (2 ^ k)) + b1 = b := by
    have h := cast_of_mod _ _ hb; push_cast at h; exact h
  have hcs' : (c0 : ZMod (2 ^ k)) + c1 = c := by
    have h := cast_of_mod _ _ hcs; push_cast at h; exact h
  have hc' : (c : ZMod (2 ^ k)) = a * b := by
    have h := cast_of_mod _ _ hc; push_cast at h; exact h
  rw [← ZMod.natCast_eq_natCast_iff']
  push_cast [AdditiveSecretSharing.MultBoth, AdditiveSecretSharing.Mult,
    cast_Mod hk, cast_add32 hk, cast_sub32 hk, cast_mul32 hk]
  have hd : (x0 : ZMod (2 ^ k)) - a0 + ((x1 : ZMod (2 ^ k)) - a1)
      = (u : ZMod (2 ^ k)) - a := by linear_combination hx' - ha'
  have he : (y0 : ZMod (2 ^ k)) - b0 + ((y1 : ZMod (2 ^ k)) - b1)
      = (v : ZMod (2 ^ k)) - b := by linear_combination hy' - hb'
  rw [hd, he]
  linear_combination ((v : ZMod (2 ^ k)) - b) * ha' + ((u : ZMod (2 ^ k)) - a) * hb'
    + hcs' + hc'

/-- Witness for C1 at the spec's scenario S2: `k = 32`, `u = 7`, `v = 6`,
triple `(3, 5, 15)`, shares `u = 2 + 5`, `v = 1 + 5`, triple shares
`(1,2,10)` and `(2,3,5)`; the outputs reconstruct to 42. -/
theorem mult_beaver_correct_witness :
    ((AdditiveSecretSharing.MultBoth 32 ⟨1, 2, 10⟩ ⟨2, 3, 5⟩ 2 1 5 5).1 +
     (AdditiveSecretSharing.MultBoth 32 ⟨1, 2, 10⟩ ⟨2, 3, 5⟩ 2 1 5 5).2) % 2 ^ 32
      = (7 * 6) % 2 ^ 32 :=
  mult_beaver_correct 32 7 6 3 5 15 2 5 1 5 1 2 2 3 10 5 (by decide) (by decide)
    (by decide) (by decide) (by decide) (by decide) (by decide) (by decide)
    (by decide) (by decide)

/-! ### C2: triple shares combine to the clear triples -/

theorem split_sum_mod {k : Nat} (hk : k ≤ 32) (v r : Nat) :
    (Mod r k + Mod (sub32 v (Mod r k)) k) % 2 ^ k = v % 2 ^ k := by
  rw [← ZMod.natCast_eq_natCast_iff']
  push_cast [cast_Mod hk, cast_sub32 hk]
  ring

theorem xor_split (v r : Nat) : r ^^^ (v ^^^ r) = v := by
  rw [Nat.xor_comm v r, ← Nat.xor_assoc, Nat.xor_self, Nat.zero_xor]

/-- C2: for every vector of clear Beaver triples, `ShareBeaverTriples`
returns two triple-share vectors that combine component-wise to the input
triples — additively modulo `2^k` in the arithmetic engine, by XOR in the
boolean engine — and in particular the two `c`-shares combine to the clear
`c = a*b` (resp. `a & b`), for every index and every outcome of the fresh
randomness used for the first share. -/
theorem shareBeaverTriples_combine (k : Nat) (hk2 : 2 ≤ k) (hk : k ≤ 32)
    (btVec : List BeaverTriplet) (rnd : Nat → Nat × Nat × Nat)
    (rndB : Nat → Bool × Bool × Bool) (i0 j0 : Nat) :
    List.Forall₂ (fun bt p =>
        ((p.1.a + p.2.a) % 2 ^ k = bt.a % 2 ^ k ∧
         (p.1.b + p.2.b) % 2 ^ k = bt.b % 2 ^ k ∧
         (p.1.c + p.2.c) % 2 ^ k = bt.c % 2 ^ k) ∧
        (bt.c % 2 ^ k = (bt.a * bt.b) % 2 ^ k →
          (p.1.c + p.2.c) % 2 ^ k = (bt.a * bt.b) % 2 ^ k))
      btVec ((AdditiveSecretSharing.ShareBeaverTriples k rnd btVec i0).1.zip
             (AdditiveSecretSharing.ShareBeaverTriples k rnd btVec i0).2) ∧
    List.Forall₂ (fun bt p =>
        (p.1.a ^^^ p.2.a = bt.a ∧ p.1.b ^^^ p.2.b = bt.b ∧ p.1.c ^^^ p.2.c = bt.c) ∧
        (bt.c = bt.a &&& bt.b → p.1.c ^^^ p.2.c = bt.a &&& bt.b))
      btVec ((BooleanSecretSharing.ShareBeaverTriples rndB btVec j0).1.zip
             (BooleanSecretSharing.ShareBeaverTriples rndB btVec j0).2) := by
  constructor
  · induction btVec generalizing i0 with
    | nil => simp [AdditiveSecretSharing.ShareBeaverTriples]
    | cons bt rest ih =>
      simp only [AdditiveSecretSharing.ShareBeaverTriples, List.zip_cons_cons]
      refine List.Forall₂.cons ?_ (ih (i0 + 1))
      refine ⟨⟨split_sum_mod hk _ _, split_sum_mod hk _ _, split_sum_mod hk _ _⟩, ?_⟩
      intro hcc
      exact (split_sum_mod hk _ _).trans hcc
  · induction btVec generalizing j0 with
    | nil => simp [BooleanSecretSharing.ShareBeaverTriples]
    | cons bt rest ih =>
      simp only [BooleanSecretSharing.ShareBeaverTriples, List.zip_cons_cons]
      refine List.Forall₂.cons ?_ (ih (j0 + 1))
      refine ⟨⟨xor_split _ _, xor_split _ _, xor_split _ _⟩, ?_⟩
      intro hcc
      exact (xor_split _ _).trans hcc

/-- Witness for C2: one clear triple `(3, 5, 15)` at `k = 8`, with
arbitrary concrete randomness for both engines. -/
theorem shareBeaverTriples_combine_witness :
    List.Forall₂ (fun (bt : BeaverTriplet) (p : BeaverTriplet × BeaverTriplet) =>
        ((p.1.a + p.2.a) % 2 ^ 8 = bt.a % 2 ^ 8 ∧
         (p.1.b + p.2.b) % 2 ^ 8 = bt.b % 2 ^ 8 ∧
         (p.1.c + p.2.c) % 2 ^ 8 = bt.c % 2 ^ 8) ∧
        (bt.c % 2 ^ 8 = (bt.a * bt.b) % 2 ^ 8 →
          (p.1.c + p.2.c) % 2 ^ 8 = (bt.a * bt.b) % 2 ^ 8))
      ([⟨3, 5, 15⟩] : List BeaverTriplet)
      ((AdditiveSecretSharing.ShareBeaverTriples 8 (fun _ => (9, 7, 200)) [⟨3, 5, 15⟩] 0).1.zip
       (AdditiveSecretSharing.ShareBeaverTriples 8 (fun _ => (9, 7, 200)) [⟨3, 5, 15⟩] 0).2) ∧
    List.Forall₂ (fun (bt : BeaverTriplet) (p : BeaverTriplet × BeaverTriplet) =>
        (p.1.a ^^^ p.2.a = bt.a ∧ p.1.b ^^^ p.2.b = bt.b ∧ p.1.c ^^^ p.2.c = bt.c) ∧
        (bt.c = bt.a &&& bt.b → p.1.c ^^^ p.2.c = bt.a &&& bt.b))
      ([⟨3, 5, 15⟩] : List BeaverTriplet)
      ((BooleanSecretSharing.ShareBeaverTriples (fun _ => (true, false, true)) [⟨3, 5, 15⟩] 0).1.zip
       (BooleanSecretSharing.ShareBeaverTriples (fun _ => (true, false, true)) [⟨3, 5, 15⟩] 0).2) :=
  shareBeaverTriples_combine 8 (by decide) (by decide) [⟨3, 5, 15⟩]
    (fun _ => (9, 7, 200)) (fun _ => (true, false, true)) 0 0

/-! ### C5: secure OR with the asymmetric bit-flip -/

set_option maxHeartbeats 1000000 in
/-- C5: for all clear bits `x = x0 ^ x1` and `y = y0 ^ y1`, every valid
boolean triple `(a, b, c)` with `c = a & b` and every XOR splitting of
`x, y, a, b, c` into party (low-bit) shares, running
`BooleanSecretSharing::Or` at both parties — only party 0 flips its input
shares before the AND and flips its output share afterwards, party 1
executes a plain AND — produces output shares with
`z0 ^ z1 = x | y`. -/
theorem or_correct (x y a b c x0 x1 y0 y1 a0 a1 b0 b1 c0 c1 : Nat)
    (hx : x < 2) (hy : y < 2) (ha : a < 2) (hb : b < 2) (hcab : c = a &&& b)
    (hx0 : x0 < 2) (hx1 : x1 < 2) (hy0 : y0 < 2) (hy1 : y1 < 2)
    (ha0 : a0 < 2) (ha1 : a1 < 2) (hb0 : b0 < 2) (hb1 : b1 < 2)
    (hc0 : c0 < 2) (hc1 : c1 < 2)
    (hsx : x0 ^^^ x1 = x) (hsy : y0 ^^^ y1 = y) (hsa : a0 ^^^ a1 = a)
    (hsb : b0 ^^^ b1 = b) (hsc : c0 ^^^ c1 = c) :
    (BooleanSecretSharing.OrBoth ⟨a0, b0, c0⟩ ⟨a1, b1, c1⟩ x0 y0 x1 y1).1 ^^^
      (BooleanSecretSharing.OrBoth ⟨a0, b0, c0⟩ ⟨a1, b1, c1⟩ x0 y0 x1 y1).2
      = x ||| y := by
  subst hsx
  subst hsy
  subst hsa
  subst hsb
  subst hsc
  interval_cases x0 <;> interval_cases x1 <;> interval_cases y0 <;> interval_cases y1 <;>
    interval_cases a0 <;> interval_cases a1 <;> interval_cases b0 <;> interval_cases b1 <;>
    interval_cases c0 <;> interval_cases c1 <;> revert hcab <;> decide

/-- Witness for C5: `x = 1` (shares 0, 1), `y = 0` (shares 1, 1), triple
`(1, 1, 1)` split as `(0,1,1)` and `(1,0,0)`; OR reconstructs to 1. -/
theorem or_correct_witness :
    (BooleanSecretSharing.OrBoth ⟨0, 1, 1⟩ ⟨1, 0, 0⟩ 0 1 1 1).1 ^^^
      (BooleanSecretSharing.OrBoth ⟨0, 1, 1⟩ ⟨1, 0, 0⟩ 0 1 1 1).2 = 1 ||| 0 :=
  or_correct 1 0 1 1 1 0 1 1 1 0 1 1 0 1 0 (by decide) (by decide) (by decide)
    (by decide) (by decide) (by decide) (by decide) (by decide) (by decide)
    (by decide) (by decide) (by decide) (by decide) (by decide) (by decide)
    (by decide) (by decide) (by decide) (by decide) (by decide)

/-! ### C8: the boolean engine preserves the low-bit invariant -/

/-- C8: for every input secret `x` in `{0,1}` both components of
`BooleanSecretSharing::Share` are in `{0,1}`, and for all operand shares,
peer values and triple components in `{0,1}` the outputs of `Reconst`,
`And` and `Or` (at either party) are again in `{0,1}`: all high bits of
the 32-bit cell stay zero. -/
theorem boolean_low_bit_invariant (x : Nat) (r : Bool) (s0 s1 a b c u v pd pe id : Nat)
    (hx : x < 2) (hs0 : s0 < 2) (hs1 : s1 < 2) (ha : a < 2) (hb : b < 2) (hc : c < 2)
    (hu : u < 2) (hv : v < 2) (hpd : pd < 2) (hpe : pe < 2) (hid : id < 2) :
    (BooleanSecretSharing.Share x r).1 < 2 ∧ (BooleanSecretSharing.Share x r).2 < 2 ∧
    BooleanSecretSharing.Reconst s0 s1 < 2 ∧
    BooleanSecretSharing.And id ⟨a, b, c⟩ u v pd pe < 2 ∧
    BooleanSecretSharing.Or id ⟨a, b, c⟩ u v pd pe < 2 := by
  refine ⟨?_, ?_, ?_, ?_, ?_⟩
  · cases r <;> simp [BooleanSecretSharing.Share, BooleanSecretSharing.b2u]
  · cases r <;> interval_cases x <;> decide
  · interval_cases s0 <;> interval_cases s1 <;> decide
  · interval_cases id <;> interval_cases a <;> interval_cases b <;> interval_cases c <;>
      interval_cases u <;> interval_cases v <;> interval_cases pd <;> interval_cases pe <;>
      decide
  · interval_cases id <;> interval_cases a <;> interval_cases b <;> interval_cases c <;>
      interval_cases u <;> interval_cases v <;> interval_cases pd <;> interval_cases pe <;>
      decide

/-- Witness for C8 at concrete bit values. -/
theorem boolean_low_bit_invariant_witness :
    (BooleanSecretSharing.Share 1 true).1 < 2 ∧ (BooleanSecretSharing.Share 1 true).2 < 2 ∧
    BooleanSecretSharing.Reconst 1 0 < 2 ∧
    BooleanSecretSharing.And 0 ⟨1, 1, 1⟩ 0 1 1 0 < 2 ∧
    BooleanSecretSharing.Or 0 ⟨1, 1, 1⟩ 0 1 1 0 < 2 :=
  boolean_low_bit_invariant 1 true 1 0 1 1 1 0 1 1 0 0 (by decide) (by decide)
    (by decide) (by decide) (by decide) (by decide) (by decide) (by decide)
    (by decide) (by decide) (by decide)

/-! ### C3: the transport loops under short writes / reads -/

/-- C3: evidence of the transport bug.  `SendData` and `RecvData` pass the
unchanged pointer and full size to every `send`/`recv` call, so after a
short (positive) transfer they re-transfer from the start of the buffer.
On the buffer `[10, 20]` with two short writes of one byte each, the wire
carries `[10, 10]` (the first byte twice, the second never) and the loop
still reports success; symmetrically, receiving the stream `[10, 20]` with
two short reads of one byte each leaves the buffer as `[20, 0]`.  The
transfer-each-byte-exactly-once-in-order contract fails. -/
theorem transport_resends_prefix_on_short_transfer :
    SendData [10, 20] 2 0 [1, 1] = some ([10, 10], true) ∧
    RecvData [10, 20] [0, 0] 2 0 [1, 1] = some ([20, 0], true) ∧
    ([10, 10] : List Nat) ≠ [10, 20] ∧ ([20, 0] : List Nat) ≠ [10, 20] :=
  ⟨rfl, rfl, by decide, by decide⟩

/-! ### C7: re-start is not a frame-preserving no-op -/

/-- C7 counterexample: on an already-started party with a non-zero
bytes-sent counter, a second `Party::StartCommunication` does not leave
the state unchanged — the counter is cleared before the latch test. -/
theorem startCommunication_counterexample :
    StartCommunication ⟨0, 5, true, 2⟩ ≠ (⟨0, 5, true, 2⟩ : PartyState) ∧
    (StartCommunication ⟨0, 5, true, 2⟩).totalBytesSent = 0 ∧
    (StartCommunication ⟨0, 5, true, 2⟩).socketOpsPerformed = 2 := by
  decide

/-- C7 amended: if the started latch is set, a second
`Party::StartCommunication` performs no socket operation and leaves the
whole state unchanged except for the bytes-sent counter, which it resets
to zero (the clear precedes the latch check). -/
theorem startCommunication_restart (s : PartyState) (h : s.isStarted = true) :
    StartCommunication s = { s with totalBytesSent := 0 } := by
  simp [StartCommunication, h]

/-- Witness for the amended C7 on a concrete started party. -/
theorem startCommunication_restart_witness :
    StartCommunication ⟨1, 7, true, 4⟩ = (⟨1, 0, true, 4⟩ : PartyState) :=
  startCommunication_restart ⟨1, 7, true, 4⟩ rfl

/-! ### C6: no length check in the vector multiplication -/

theorem except_bind_error {α β : Type} (e : SSErr) (f : α → Except SSErr β) :
    (Except.error e >>= f) = Except.error e := rfl

theorem except_bind_ok {α β : Type} (a : α) (f : α → Except SSErr β) :
    (Except.ok a >>= f) = f a := rfl

theorem deLoop_oob (k : Nat) (bts : List BeaverTriplet) (xs ys : List Nat) :
    ∀ rem i, min xs.length (min ys.length bts.length) < i + rem →
      i ≤ min xs.length (min ys.length bts.length) →
      deLoop k bts xs ys i rem = Except.error SSErr.outOfBounds := by
  intro rem
  induction rem with
  | zero => intro i h1 h2; omega
  | succ rem ih =>
    intro i h1 h2
    rcases hx : xs[i]? with _ | x
    · simp [deLoop, vecIdx, hx, except_bind_error, except_bind_ok]
    · rcases hbt : bts[i]? with _ | bt
      · simp [deLoop, vecIdx, hx, hbt, except_bind_error, except_bind_ok]
      · rcases hy : ys[i]? with _ | y
        · simp [deLoop, vecIdx, hx, hbt, hy, except_bind_error, except_bind_ok]
        · have hxl : i < xs.length := by
            by_contra hcon
            rw [List.getElem?_eq_none (by omega)] at hx
            exact Option.noConfusion hx
          have hbtl : i < bts.length := by
            by_contra hcon
            rw [List.getElem?_eq_none (by omega)] at hbt
            exact Option.noConfusion hbt
          have hyl : i < ys.length := by
            by_contra hcon
            rw [List.getElem?_eq_none (by omega)] at hy
            exact Option.noConfusion hy
          simp [deLoop, vecIdx, hx, hbt, hy, except_bind_error, except_bind_ok,
            ih (i + 1) (by omega) (by omega)]

/-- C6 amended: the vector overload of `AdditiveSecretSharing::Mult`
performs no length validation at all; whenever an operand vector or the
triple vector is shorter than the output vector (whose size drives the
loops), it makes an out-of-range `operator[]` access — undefined
behaviour — instead of failing with a `LengthMismatch` error. -/
theorem multVec_short_input_oob (k id num : Nat) (bts : List BeaverTriplet)
    (xs ys : List Nat) (dePeer : List (Nat × Nat))
    (h : min xs.length (min ys.length bts.length) < num) :
    MultVec k id num bts xs ys dePeer = Except.error SSErr.outOfBounds := by
  rw [MultVec]
  rw [deLoop_oob k bts xs ys num 0 (by omega) (by omega)]
  rfl

/-- Witness for the amended C6: output size 1, empty triple vector. -/
theorem multVec_short_input_oob_witness :
    MultVec 8 0 1 [] [5] [6] [] = Except.error SSErr.outOfBounds :=
  multVec_short_input_oob 8 0 1 [] [5] [6] [] (by decide)

/-- C6 counterexample: at a concrete mismatched input (one requested
product, operand vectors of length 1, an empty triple vector) the
operation does not fail with `LengthMismatch`: it dies on the
out-of-bounds access instead. -/
theorem multVec_counterexample :
    MultVec 16 0 1 [] [3] [4] [(0, 0)] = Except.error SSErr.outOfBounds ∧
    MultVec 16 0 1 [] [3] [4] [(0, 0)] ≠ Except.error SSErr.lengthMismatch :=
  ⟨rfl, fun h => SSErr.noConfusion (Except.error.inj h)⟩

/-! ### C9: Beaver-triple persistence round-trips -/

theorem decimalBytes_foldl (n : Nat) :
    ∀ acc, (decimalBytes n).foldl (fun acc d => acc * 10 + (d - 48)) acc
      = acc * 10 ^ (decimalBytes n).length + n := by
  induction n using Nat.strong_induction_on with
  | _ n ih =>
    intro acc
    by_cases h : n < 10
    · rw [decimalBytes, dif_pos h]
      simp [List.foldl]
    · rw [decimalBytes, dif_neg h, List.foldl_append,
        ih (n / 10) (Nat.div_lt_self (by omega) (by omega)) acc]
      simp only [List.foldl_cons, List.foldl_nil, List.length_append, List.length_cons,
        List.length_nil]
      have h1 : 48 + n % 10 - 48 = n % 10 := by omega
      have h2 : n / 10 * 10 + n % 10 = n := by omega
      rw [h1]
      generalize (decimalBytes (n / 10)).length = L
      calc (acc * 10 ^ L + n / 10) * 10 + n % 10
          = acc * (10 ^ L * 10) + (n / 10 * 10 + n % 10) := by ring
        _ = acc * 10 ^ (L + (0 + 1)) + n := by
            rw [h2]
            norm_num [pow_succ]

theorem parse_decimalBytes (n : Nat) : parseDecimal (decimalBytes n) = n := by
  rw [parseDecimal, decimalBytes_foldl]
  simp

theorem decimalBytes_digits (n : Nat) : ∀ d ∈ decimalBytes n, 48 ≤ d ∧ d ≤ 57 := by
  induction n using Nat.strong_induction_on with
  | _ n ih =>
    intro d hd
    by_cases h : n < 10
    · rw [decimalBytes, dif_pos h] at hd
      simp at hd
      omega
    · rw [decimalBytes, dif_neg h] at hd
      rcases List.mem_append.mp hd with h1 | h2
      · exact ih (n / 10) (Nat.div_lt_self (by omega) (by omega)) d h1
      · simp at h2
        have : n % 10 < 10 := by omega
        omega

theorem decimalBytes_no_comma (n : Nat) : ∀ d ∈ decimalBytes n, d ≠ 44 := by
  intro d hd
  have := decimalBytes_digits n d hd
  omega

theorem splitCommaAux_append (ds : List Nat) (hds : ∀ d ∈ ds, d ≠ 44) :
    ∀ l cur, splitCommaAux (ds ++ l) cur = splitCommaAux l (cur ++ ds) := by
  induction ds with
  | nil =>
    intro l cur
    rw [List.nil_append, List.append_nil]
  | cons d ds ih =>
    intro l cur
    have hd : d ≠ 44 := hds d (by simp)
    rw [List.cons_append, splitCommaAux, if_neg hd,
      ih (fun e he => hds e (by simp [he])) l (cur ++ [d]), List.append_assoc,
      List.singleton_append]

theorem splitCommaAux_nocomma (ds : List Nat) (hds : ∀ d ∈ ds, d ≠ 44) :
    splitCommaAux ds [] = [ds] := by
  have h := splitCommaAux_append ds hds [] []
  rw [List.append_nil, List.nil_append] at h
  rw [h, splitCommaAux]

theorem split_triple_line (A B C : List Nat)
    (hA : ∀ d ∈ A, d ≠ 44) (hB : ∀ d ∈ B, d ≠ 44) (hC : ∀ d ∈ C, d ≠ 44) :
    splitCommaAux (A ++ 44 :: (B ++ 44 :: C)) [] = [A, B, C] := by
  rw [splitCommaAux_append A hA _ [], List.nil_append, splitCommaAux, if_pos rfl,
    splitCommaAux_append B hB _ [], List.nil_append, splitCommaAux, if_pos rfl,
    splitCommaAux_nocomma C hC]

theorem split_parse_triple_line (a b c : Nat) :
    SplitStringToUint32 (decimalBytes a ++ 44 :: (decimalBytes b ++ 44 :: decimalBytes c))
      = [a, b, c] := by
  rw [SplitStringToUint32,
    split_triple_line _ _ _ (decimalBytes_no_comma a) (decimalBytes_no_comma b)
      (decimalBytes_no_comma c)]
  simp [parse_decimalBytes]

/-- C9: for every vector of triples, writing it with
`ShareHandler::WriteBeaverTriplesToFile` (first line the element count,
then one decimal `a,b,c` line per triple) and reading the file back with
`ShareHandler::ReadBeaverTriplesFromFile` yields a triple vector equal
element-wise to the original. -/
theorem beaverTriples_file_roundtrip (btVec : List BeaverTriplet) :
    ReadBeaverTriplesFromFile (WriteBeaverTriplesToFile btVec) = btVec := by
  rw [WriteBeaverTriplesToFile, ReadBeaverTriplesFromFile, parse_decimalBytes,
    List.take_of_length_le (by simp), List.map_map]
  conv_rhs => rw [← List.map_id btVec]
  apply List.map_congr_left
  intro bt _
  cases bt with
  | mk a b c => simp [Function.comp, split_parse_triple_line]

end FssV2
